import Mathlib

/-
  Verification of the firenotes-admin note/folder consistency core.

  Shallow embedding of src/src/app/notes/useNotes.ts (the useNotes and
  useFolders hooks) and of the role-write portion of database.rules.json.

  The Firebase realtime database is modelled as three association lists
  keyed by path segment: notes/{noteId}, folders/{folderId} and the
  per-user folder-id index users/{uid}/folders.  Each repository operation
  is a pure function from the store (plus the acting principal, the
  freshly generated push id where the code calls push(), and the value of
  Date.now()) to the store after all writes the code issues, together
  with an optional error mirroring the code throw sites.  Every throw in
  updateNote, deleteNote, moveNoteToFolder, createNote and createFolder
  happens before any write is issued, so those operations return the
  input store unchanged on error; deleteFolder issues the per-note
  removals before its user-record read can fail, and the model reproduces
  that partial state.
-/

namespace FireNotes

/-- An association list keyed by strings, modelling one collection of
database records (path segment to record value). -/
abbrev KeyedList (α : Type) := List (String × α)

/-- Read of a single record: the first entry with the given key, as
firebase get() of a path. -/
def lookupK {α : Type} (l : KeyedList α) (k : String) : Option α :=
  (l.find? (fun p => p.1 == k)).map (fun p => p.2)

/-- Write of a single record path: replaces any entry with the given key. -/
def upsert {α : Type} (l : KeyedList α) (k : String) (v : α) : KeyedList α :=
  l.filter (fun p => p.1 != k) ++ [(k, v)]

/-- Deletion of a record path (writing null). -/
def eraseK {α : Type} (l : KeyedList α) (k : String) : KeyedList α :=
  l.filter (fun p => p.1 != k)

/-- Whitespace test of the trim model (space, tab, newline, return). -/
def isWS (c : Char) : Bool := c == ' ' || c == '\t' || c == '\n' || c == '\r'

/-- Model of the javascript String.prototype.trim used by the code,
defined over the character list so that concrete runs reduce in the
kernel (the library String.trim does not). -/
def trimStr (s : String) : String :=
  String.mk (((s.data.dropWhile isWS).reverse.dropWhile isWS).reverse)

/-- Model of String.prototype.toLowerCase, character by character. -/
def lowerStr (s : String) : String := String.mk (s.data.map Char.toLower)

/-- A note record at notes/{noteId}, from the Note and NoteWithId
interfaces of useNotes.ts (folderId is the optional folder reference;
none models an absent or null field). -/
structure Note where
  title : String
  content : String
  createdAt : Nat
  updatedAt : Nat
  userId : String
  contentLength : Nat
  folderId : Option String
deriving Repr, DecidableEq

/-- A folder record at folders/{folderId}, from the Folder interface of
useFolders (the id is the key of the entry, not stored in the record). -/
structure Folder where
  name : String
  userId : String
  noteIds : List String
  createdAt : Nat
  updatedAt : Nat
deriving Repr, DecidableEq

/-- The backing store: notes/{noteId}, folders/{folderId} and the
per-user folder-id index users/{uid}/folders. -/
structure Store where
  notes : KeyedList Note
  folders : KeyedList Folder
  userFolders : KeyedList (List String)
deriving Repr, DecidableEq

/-- The error taxonomy of the spec; each operation maps its throw sites
onto it (the shared message Note not found or unauthorized in
updateNote, deleteNote and moveNoteToFolder is AuthorizationError). -/
inductive Err where
  | authenticationError
  | authorizationError
  | validationError
  | notFoundError
  | conflictError
  | operationError
deriving Repr, DecidableEq

/-- The partial-update argument of updateNote: Partial of the note
fields minus userId and createdAt, plus an optional folderId.  The code
distinguishes the key folderId being present in the object from its
value, so presence is a separate flag. -/
structure NoteUpdates where
  title : Option String := none
  content : Option String := none
  contentLength : Option Nat := none
  folderPresent : Bool := false
  folderId : Option String := none
deriving Repr, DecidableEq

/-- createNote from useNotes.ts lines 210-275.  noteId is the key
produced by push(), now is Date.now().  Writes the note record, then,
when the target folder exists and is owned by the caller, appends the
note id to the folder noteIds (if absent) and bumps its updatedAt. -/
def createNote (user : String) (title content : String) (folderId : Option String)
    (noteId : String) (now : Nat) (s : Store) : Store × Option Err :=
  match folderId with
  | none => (s, some Err.validationError)
  | some fid =>
    let newNote : Note :=
      { title := if trimStr title = "" then "Untitled Note" else trimStr title
        content := trimStr content
        createdAt := now
        updatedAt := now
        userId := user
        contentLength := (trimStr content).length
        folderId := some fid }
    let s1 : Store := { s with notes := upsert s.notes noteId newNote }
    match lookupK s1.folders fid with
    | some f =>
      if f.userId = user then
        if noteId ∈ f.noteIds then (s1, none)
        else
          let f2 := { f with noteIds := f.noteIds ++ [noteId], updatedAt := now }
          ({ s1 with folders := upsert s1.folders fid f2 }, none)
      else (s1, none)
    | none => (s1, none)

/-- The single-path update payload of updateNote: the given fields minus
folderId, updatedAt forced to now, contentLength recomputed when content
is present (overriding an explicitly given contentLength). -/
def applyPayload (n : Note) (v : NoteUpdates) (now : Nat) : Note :=
  { n with
    title := v.title.getD n.title
    content := v.content.getD n.content
    updatedAt := now
    contentLength :=
      match v.content with
      | some c => c.length
      | none => v.contentLength.getD n.contentLength }

/-- updateNote from useNotes.ts lines 277-377.  When folderId is present
and differs from the stored one, the code issues one atomic multi-path
write that removes the id from the old folder (if that folder exists),
appends it to the validated new folder (if absent there) and writes only
the folderId and updatedAt of the note; the other given fields are not
part of that write.  Otherwise it issues a single-path merge of the
payload into the note record. -/
def updateNote (user noteId : String) (v : NoteUpdates) (now : Nat) (s : Store) :
    Store × Option Err :=
  match lookupK s.notes noteId with
  | none => (s, some Err.authorizationError)
  | some note =>
    if note.userId ≠ user then (s, some Err.authorizationError)
    else if v.folderPresent then
      if v.folderId ≠ note.folderId then
        let folders1 :=
          match note.folderId with
          | some p =>
            match lookupK s.folders p with
            | some oldF =>
              let oldF2 :=
                { oldF with noteIds := oldF.noteIds.filter (fun x => x != noteId),
                            updatedAt := now }
              upsert s.folders p oldF2
            | none => s.folders
          | none => s.folders
        match v.folderId with
        | some f =>
          match lookupK s.folders f with
          | none => (s, some Err.authorizationError)
          | some newF =>
            if newF.userId ≠ user then (s, some Err.authorizationError)
            else
              let newF2 :=
                { newF with noteIds := newF.noteIds ++ [noteId], updatedAt := now }
              let folders2 :=
                if noteId ∈ newF.noteIds then folders1
                else upsert folders1 f newF2
              let note2 : Note := { note with folderId := some f, updatedAt := now }
              ({ s with folders := folders2,
                        notes := upsert s.notes noteId note2 }, none)
        | none =>
          let note2 : Note := { note with folderId := none, updatedAt := now }
          ({ s with folders := folders1,
                    notes := upsert s.notes noteId note2 }, none)
      else
        ({ s with notes := upsert s.notes noteId (applyPayload note v now) }, none)
    else
      ({ s with notes := upsert s.notes noteId (applyPayload note v now) }, none)

/-- The per-folder cleanup deleteNote applies while scanning all folders:
folders owned by the caller that list the note id get it filtered out and
their updatedAt bumped. -/
def stripNote (user noteId : String) (now : Nat) (f : Folder) : Folder :=
  if f.userId = user ∧ noteId ∈ f.noteIds then
    { f with noteIds := f.noteIds.filter (fun x => x != noteId), updatedAt := now }
  else f

/-- deleteNote from useNotes.ts lines 379-437: after the ownership check
it removes the id from every folder of the caller that contains it and
deletes the note record, all in one atomic multi-path write. -/
def deleteNote (user noteId : String) (now : Nat) (s : Store) : Store × Option Err :=
  match lookupK s.notes noteId with
  | none => (s, some Err.authorizationError)
  | some note =>
    if note.userId ≠ user then (s, some Err.authorizationError)
    else
      ({ s with
          folders := s.folders.map (fun q => (q.1, stripNote user noteId now q.2)),
          notes := eraseK s.notes noteId }, none)

/-- moveNoteToFolder from useNotes.ts lines 439-534.  The third result
component records whether the operation issued a write (the code only
calls update() when the accumulated updates object is nonempty). -/
def moveNoteToFolder (user noteId : String) (target : Option String) (now : Nat)
    (s : Store) : Store × Option Err × Bool :=
  match lookupK s.notes noteId with
  | none => (s, some Err.authorizationError, false)
  | some note =>
    if note.userId ≠ user then (s, some Err.authorizationError, false)
    else
      let currentFolderId := note.folderId
      let tcheck : Except Err (Option (String × Folder)) :=
        match target with
        | none => Except.ok none
        | some t =>
          match lookupK s.folders t with
          | none => Except.error Err.authorizationError
          | some tf =>
            if tf.userId ≠ user then Except.error Err.authorizationError
            else if noteId ∈ tf.noteIds then Except.ok none
            else
              let tf2 := { tf with noteIds := tf.noteIds ++ [noteId], updatedAt := now }
              Except.ok (some (t, tf2))
      match tcheck with
      | Except.error e => (s, some e, false)
      | Except.ok tUpd =>
        let cUpd : Option (String × Folder) :=
          match currentFolderId with
          | some c =>
            if some c ≠ target then
              match lookupK s.folders c with
              | some cf =>
                let cf2 :=
                  { cf with noteIds := cf.noteIds.filter (fun x => x != noteId),
                            updatedAt := now }
                some (c, cf2)
              | none => none
            else none
          | none => none
        let nUpd : Option Note :=
          if currentFolderId ≠ target then
            some { note with folderId := target, updatedAt := now }
          else none
        let wrote := tUpd.isSome || cUpd.isSome || nUpd.isSome
        let folders1 := match tUpd with
          | some (t, tf) => upsert s.folders t tf
          | none => s.folders
        let folders2 := match cUpd with
          | some (c, cf) => upsert folders1 c cf
          | none => folders1
        let notes1 := match nUpd with
          | some n2 => upsert s.notes noteId n2
          | none => s.notes
        ({ s with folders := folders2, notes := notes1 }, none, wrote)

/-- createFolder from useFolders (useNotes.ts lines 898-999).  cache is
the locally cached folder list of the hook as (id, name) pairs; newId is
the push() key.  The duplicate check runs case-insensitively against the
cache first and then against fresh lookups of every indexed folder id
that is not cached. -/
def createFolder (user : String) (cache : List (String × String)) (name : String)
    (newId : String) (now : Nat) (s : Store) : Store × Option Err :=
  let folderName := trimStr name
  if folderName = "" then (s, some Err.validationError)
  else if cache.any (fun p => lowerStr p.2 == lowerStr folderName) then
    (s, some Err.conflictError)
  else
    let userFolderIds := (lookupK s.userFolders user).getD []
    let foldersToCheck := userFolderIds.filter
      (fun id => !(cache.any (fun p => p.1 == id)))
    if foldersToCheck.any (fun id =>
        match lookupK s.folders id with
        | some f => lowerStr f.name == lowerStr folderName
        | none => false) then
      (s, some Err.conflictError)
    else if newId ∈ userFolderIds then (s, some Err.operationError)
    else
      let newFolder : Folder :=
        { name := folderName, userId := user, noteIds := [],
          createdAt := now, updatedAt := now }
      ({ s with folders := upsert s.folders newId newFolder,
                userFolders := upsert s.userFolders user (userFolderIds ++ [newId]) },
       none)

/-- deleteFolder from useFolders (useNotes.ts lines 1082-1155): after the
ownership check it deletes every note listed in the folder noteIds (one
remove() per note), then reads the user record — failing there leaves the
notes already deleted — and finally removes the folder id from the user
index and deletes the folder record in one atomic multi-path write. -/
def deleteFolder (user fid : String) (s : Store) : Store × Option Err :=
  match lookupK s.folders fid with
  | none => (s, some Err.notFoundError)
  | some fd =>
    if fd.userId ≠ user then (s, some Err.authorizationError)
    else
      let notes1 := fd.noteIds.foldl (fun acc nid => eraseK acc nid) s.notes
      match lookupK s.userFolders user with
      | none => ({ s with notes := notes1 }, some Err.notFoundError)
      | some idx =>
        ({ s with notes := notes1,
                  folders := eraseK s.folders fid,
                  userFolders := upsert s.userFolders user
                    (idx.filter (fun x => x != fid)) }, none)

/-- The reentrancy state of the useFolders hook around updateFoldersList:
the isProcessing ref and the pendingUpdates ref (a set of folder ids).
No code path of the hook ever inserts into pendingUpdates. -/
structure FolderSync where
  isProcessing : Bool
  pendingUpdates : List String
deriving Repr, DecidableEq

/-- The synchronous admission prologue of updateFoldersList (useNotes.ts
lines 684-688): a call arriving while isProcessing is set returns at once
— without recording the request anywhere — and otherwise sets the flag
and proceeds (the second component tells whether the body runs). -/
def updateFoldersListGuard (st : FolderSync) : FolderSync × Bool :=
  if st.isProcessing then (st, false)
  else ({ st with isProcessing := true }, true)

/-- The finally block of updateFoldersList (lines 760-772): clears
isProcessing and, when pendingUpdates is nonempty, drains it into a
recursive call (returned here as the drained id set). -/
def updateFoldersListFinish (st : FolderSync) : FolderSync × Option (List String) :=
  let st1 := { st with isProcessing := false }
  if st1.pendingUpdates ≠ [] then
    ({ st1 with pendingUpdates := [] }, some st1.pendingUpdates)
  else (st1, none)

/-- The notes side of membership symmetry, strengthened with invariant 1
of the spec (owner agreement): a stored note pointing at a folder finds
that folder existing, listing the note id, and owned by the note owner. -/
def NotesSide (s : Store) : Prop :=
  ∀ nid n fid, lookupK s.notes nid = some n → n.folderId = some fid →
    ∃ f, lookupK s.folders fid = some f ∧ nid ∈ f.noteIds ∧ f.userId = n.userId

/-- The folders side of membership symmetry: every id a folder lists is
an existing note whose folderId is that folder. -/
def FoldersSide (s : Store) : Prop :=
  ∀ fid f nid, lookupK s.folders fid = some f → nid ∈ f.noteIds →
    ∃ n, lookupK s.notes nid = some n ∧ n.folderId = some fid

/-- The consistent-store predicate: membership symmetry in both
directions, with owner agreement on the notes side. -/
def Consistent (s : Store) : Prop := NotesSide s ∧ FoldersSide s

/-- Helper of the executable consistency check: the looked-up folder
exists, lists the note id, and has the expected owner. -/
def memberOK (nid uid : String) : Option Folder → Bool
  | none => false
  | some f => decide (nid ∈ f.noteIds) && (f.userId == uid)

/-- Helper of the executable consistency check: a note folder reference
is absent or points at a folder passing memberOK. -/
def folderRefOK (s : Store) (nid uid : String) : Option String → Bool
  | none => true
  | some fid => memberOK nid uid (lookupK s.folders fid)

/-- Helper of the executable consistency check: the looked-up note exists
and points back at the folder. -/
def backRefOK (fid : String) : Option Note → Bool
  | none => false
  | some n => n.folderId == some fid

/-- Executable check of Consistent, iterating over the stored entries. -/
def consistentB (s : Store) : Bool :=
  s.notes.all (fun p => folderRefOK s p.1 p.2.userId p.2.folderId) &&
  s.folders.all (fun q => q.2.noteIds.all (fun nid => backRefOK q.1 (lookupK s.notes nid)))

/-
  database.rules.json, users subtree.  Firebase realtime-database write
  rules cascade: a write to users/$uid/role is permitted when the .write
  rule at users/$uid/role or at any ancestor (here users/$uid; the
  top-level and users-level rules are false respectively absent) grants
  it, and a deeper rule cannot revoke a grant made higher up.  roleOf is
  root.child(users).child(w).child(role). -/

/-- The .write rule at users/$uid (database.rules.json line 9):
auth != null and (auth.uid === $uid or the writer role is root_admin). -/
def usersUidWriteRule (roleOf : String → Option String) (authUid : Option String)
    (uid : String) : Bool :=
  match authUid with
  | none => false
  | some w => (w == uid) || (roleOf w == some "root_admin")

/-- The .write rule at users/$uid/role (database.rules.json line 11):
auth != null, the writer role is root_admin, and the new value is user
or admin. -/
def roleFieldWriteRule (roleOf : String → Option String) (authUid : Option String)
    (newVal : String) : Bool :=
  match authUid with
  | none => false
  | some w => (roleOf w == some "root_admin") && ((newVal == "user") || (newVal == "admin"))

/-- Whether a write of newVal to users/uid/role is permitted: the grant
of the role-level rule or of the cascading users/$uid rule. -/
def canWriteRole (roleOf : String → Option String) (authUid : Option String)
    (uid : String) (newVal : String) : Bool :=
  usersUidWriteRule roleOf authUid uid || roleFieldWriteRule roleOf authUid newVal

/-- The role map of the failing input: a single authenticated user
mallory whose stored role is user. -/
def malloryRoles : String → Option String :=
  fun u => if u = "mallory" then some "user" else none

/-- One repository operation of the C1 sequence, with its acting
principal, arguments, generated id and Date.now() value. -/
inductive Op where
  | create (u title content : String) (fid : Option String) (nid : String) (now : Nat)
  | upd (u nid : String) (v : NoteUpdates) (now : Nat)
  | del (u nid : String) (now : Nat)
  | move (u nid : String) (target : Option String) (now : Nat)
  | delFolder (u fid : String)
deriving Repr

/-- Run one operation, keeping the store it leaves behind whether or not
the operation reports an error (a failed operation still completed). -/
def applyOp : Op → Store → Store × Option Err
  | Op.create u t c fid nid now, s => createNote u t c fid nid now s
  | Op.upd u nid v now, s => updateNote u nid v now s
  | Op.del u nid now, s => deleteNote u nid now s
  | Op.move u nid t now, s =>
    let r := moveNoteToFolder u nid t now s
    (r.1, r.2.1)
  | Op.delFolder u fid, s => deleteFolder u fid s

/-- Run a sequence of operations left to right. -/
def applyOps (ops : List Op) (s : Store) : Store :=
  ops.foldl (fun st op => (applyOp op st).1) s

/-- Side conditions under which an operation cannot desynchronise the
store: a createNote call must name an existing folder owned by its
caller and carry a fresh push id (as push() guarantees), and a
deleteFolder caller must have a user record (else the operation fails
after the member notes are already deleted).  The other operations need
no condition. -/
def opValidB (s : Store) : Op → Bool
  | Op.create u _ _ fid nid _ =>
    (match fid with
     | some f =>
       match lookupK s.folders f with
       | some fd => fd.userId == u
       | none => false
     | none => false) && (lookupK s.notes nid).isNone
  | Op.delFolder u _ => (lookupK s.userFolders u).isSome
  | _ => true

/-- Every operation of the sequence satisfies opValidB in the store it
actually runs against. -/
def validOpsB : Store → List Op → Bool
  | _, [] => true
  | s, op :: rest => opValidB s op && validOpsB (applyOp op s).1 rest

/-- Coherence of the locally cached folder list of the useFolders hook
with the backing store: every cached (id, name) pair reflects a stored
folder of that id and name.  The authoritative listener-driven state
satisfies this by construction. -/
def CacheCoherent (s : Store) (cache : List (String × String)) : Prop :=
  ∀ p ∈ cache, ∃ f, lookupK s.folders p.1 = some f ∧ f.name = p.2

/-- Concrete fixture: a note of user u filed in folder F. -/
def demoNote : Note :=
  { title := "Todo", content := "buy milk", createdAt := 1, updatedAt := 1,
    userId := "u", contentLength := 8, folderId := some "F" }

/-- Concrete fixture: the folder F of user u holding demoNote. -/
def demoFolder : Folder :=
  { name := "Work", userId := "u", noteIds := ["N1"], createdAt := 0, updatedAt := 1 }

/-- Concrete fixture: a consistent store of one user u with folder F
holding note N1. -/
def demoStore : Store :=
  { notes := [("N1", demoNote)], folders := [("F", demoFolder)],
    userFolders := [("u", ["F"])] }

/-- Concrete fixture: a second, empty folder G of user u. -/
def demoFolderG : Folder :=
  { name := "Other", userId := "u", noteIds := [], createdAt := 0, updatedAt := 0 }

/-- Concrete fixture: demoStore extended with the empty folder G. -/
def demoStore2 : Store :=
  { notes := [("N1", demoNote)], folders := [("F", demoFolder), ("G", demoFolderG)],
    userFolders := [("u", ["F", "G"])] }

/-- Concrete fixture: a folder of user u holding two notes. -/
def twoNoteFolder : Folder :=
  { name := "Work", userId := "u", noteIds := ["N1", "N2"], createdAt := 0, updatedAt := 0 }

/-- Concrete fixture: a store where folder F of user u holds notes N1
and N2. -/
def twoNoteStore : Store :=
  { notes := [("N1", demoNote), ("N2", { demoNote with title := "Other" })],
    folders := [("F", twoNoteFolder)], userFolders := [("u", ["F"])] }

/-- Concrete fixture: a store whose only note is owned by user v. -/
def foreignStore : Store :=
  { notes := [("N1", { demoNote with userId := "v", folderId := none })],
    folders := [], userFolders := [] }

/-! ### Lemmas and theorems -/

theorem find?_filter_of_imp {α : Type} (p q : α → Bool) (l : List α)
    (h : ∀ x, p x = true → q x = true) :
    (l.filter q).find? p = l.find? p := by
  induction l with
  | nil => rfl
  | cons a l ih =>
    by_cases hq : q a = true
    · simp only [List.filter_cons, hq, if_true]
      by_cases hp : p a = true
      · simp [List.find?, hp]
      · simp only [List.find?, hp]
        simpa [Bool.not_eq_true] using ih
    · have hp : p a = false := by
        cases hpa : p a with
        | false => rfl
        | true => exact absurd (h a hpa) hq
      simp only [List.filter_cons, hq, if_false, List.find?, hp]
      simpa using ih

theorem lookupK_append {α : Type} (l₁ l₂ : KeyedList α) (k : String) :
    lookupK (l₁ ++ l₂) k =
      ((lookupK l₁ k).rec (lookupK l₂ k) (fun v => some v) : Option α) := by
  induction l₁ with
  | nil => simp [lookupK]
  | cons a l ih =>
    by_cases h : a.1 == k
    · simp [lookupK, List.find?, h]
    · simp only [List.cons_append, lookupK, List.find?, h] at ih ⊢
      simpa using ih

@[simp] theorem lookupK_upsert_self {α : Type} (l : KeyedList α) (k : String) (v : α) :
    lookupK (upsert l k v) k = some v := by
  unfold upsert
  rw [lookupK_append]
  have hnone : lookupK (l.filter (fun p => p.1 != k)) k = none := by
    unfold lookupK
    rw [List.find?_eq_none.2]
    · rfl
    · intro x hx
      rcases List.mem_filter.1 hx with ⟨_, hxk⟩
      simp only [bne_iff_ne, ne_eq] at hxk
      simp [hxk]
  rw [hnone]
  simp [lookupK, List.find?]

theorem lookupK_upsert_ne {α : Type} (l : KeyedList α) (k k' : String) (v : α)
    (h : k' ≠ k) :
    lookupK (upsert l k v) k' = lookupK l k' := by
  unfold upsert
  rw [lookupK_append]
  have hfilter : lookupK (l.filter (fun p => p.1 != k)) k' = lookupK l k' := by
    unfold lookupK
    rw [find?_filter_of_imp]
    intro x hx
    simp only [beq_iff_eq] at hx
    simp [hx, h]
  rw [hfilter]
  have hkk : (k == k') = false := beq_eq_false_iff_ne.2 (Ne.symm h)
  have hlast : lookupK [(k, v)] k' = none := by
    simp [lookupK, List.find?, hkk]
  cases hl : lookupK l k' with
  | none => exact hlast
  | some w => rfl

@[simp] theorem lookupK_eraseK_self {α : Type} (l : KeyedList α) (k : String) :
    lookupK (eraseK l k) k = none := by
  unfold eraseK lookupK
  rw [List.find?_eq_none.2]
  · rfl
  · intro x hx
    rcases List.mem_filter.1 hx with ⟨_, hxk⟩
    simp only [bne_iff_ne, ne_eq] at hxk
    simp [hxk]

theorem lookupK_eraseK_ne {α : Type} (l : KeyedList α) (k k' : String)
    (h : k' ≠ k) :
    lookupK (eraseK l k) k' = lookupK l k' := by
  unfold eraseK lookupK
  rw [find?_filter_of_imp]
  intro x hx
  simp only [beq_iff_eq] at hx
  simp [hx, h]

theorem lookupK_mapVal {α : Type} (g : α → α) (l : KeyedList α) (k : String) :
    lookupK (l.map (fun q => (q.1, g q.2))) k = (lookupK l k).map g := by
  induction l with
  | nil => rfl
  | cons a l ih =>
    by_cases h : a.1 == k
    · simp [lookupK, List.find?, h]
    · simp only [lookupK, List.map_cons, List.find?, h] at ih ⊢
      simpa using ih

theorem lookupK_mem_of_some {α : Type} (l : KeyedList α) (k : String) (v : α)
    (h : lookupK l k = some v) : (k, v) ∈ l := by
  unfold lookupK at h
  cases hf : l.find? (fun p => p.1 == k) with
  | none => rw [hf] at h; exact absurd h (by simp)
  | some p =>
    rw [hf] at h
    have hp1 : p.1 = k := by
      have := List.find?_some hf
      simpa using this
    have hp2 : p.2 = v := by simpa using h
    have hmem := List.mem_of_find?_eq_some hf
    have : p = (k, v) := by
      cases p
      simp_all
    rw [this] at hmem
    exact hmem

theorem consistent_of_B (s : Store) (h : consistentB s = true) : Consistent s := by
  rw [consistentB, Bool.and_eq_true] at h
  obtain ⟨hN, hF⟩ := h
  constructor
  · intro nid n fid h1 h2
    have hmem : (nid, n) ∈ s.notes := lookupK_mem_of_some _ _ _ h1
    have hall := (List.all_eq_true.1 hN) _ hmem
    simp only [h2, folderRefOK] at hall
    cases hf : lookupK s.folders fid with
    | none => rw [hf] at hall; exact absurd hall (by simp [memberOK])
    | some f =>
      rw [hf] at hall
      simp only [memberOK, Bool.and_eq_true, decide_eq_true_eq, beq_iff_eq] at hall
      exact ⟨f, rfl, hall.1, hall.2⟩
  · intro fid f nid h1 h2
    have hmem : (fid, f) ∈ s.folders := lookupK_mem_of_some _ _ _ h1
    have hall := (List.all_eq_true.1 hF) _ hmem
    have hnid := (List.all_eq_true.1 hall) _ h2
    cases hn : lookupK s.notes nid with
    | none => rw [hn] at hnid; exact absurd hnid (by simp [backRefOK])
    | some n =>
      rw [hn] at hnid
      simp only [backRefOK, beq_iff_eq] at hnid
      exact ⟨n, rfl, hnid⟩

theorem lookupK_foldl_eraseK {α : Type} (ids : List String) (l : KeyedList α) (k : String) :
    lookupK (ids.foldl (fun acc nid => eraseK acc nid) l) k =
      if k ∈ ids then none else lookupK l k := by
  induction ids generalizing l with
  | nil => simp
  | cons i ids ih =>
    simp only [List.foldl_cons]
    rw [ih]
    by_cases hk : k ∈ ids
    · simp [hk]
    · by_cases hki : k = i
      · subst hki; simp [hk]
      · simp [hk, hki, lookupK_eraseK_ne l i k hki]

/-- C7: updateNote and deleteNote invoked on a note id that does not
exist or whose stored record is owned by another user both fail with
AuthorizationError and return the store unchanged (the acting principal
check precedes every write either operation issues). -/
theorem ownership_rejection (u nid : String) (v : NoteUpdates) (now : Nat) (s : Store)
    (h : ((lookupK s.notes nid).all fun n => n.userId != u) = true) :
    updateNote u nid v now s = (s, some Err.authorizationError) ∧
    deleteNote u nid now s = (s, some Err.authorizationError) := by
  cases hl : lookupK s.notes nid with
  | none =>
    constructor
    · unfold updateNote; simp [hl]
    · unfold deleteNote; simp [hl]
  | some n =>
    rw [hl] at h
    simp only [Option.all_some, bne_iff_ne, ne_eq] at h
    constructor
    · unfold updateNote; simp [hl, h]
    · unfold deleteNote; simp [hl, h]

/-- Witness for C7: in the store whose note N1 belongs to user v, the
acting user u gets AuthorizationError from updateNote and deleteNote and
the store is unchanged. -/
theorem ownership_rejection_witness :
    ((lookupK foreignStore.notes "N1").all fun n => n.userId != "u") = true ∧
    (updateNote "u" "N1" {} 0 foreignStore = (foreignStore, some Err.authorizationError) ∧
     deleteNote "u" "N1" 0 foreignStore = (foreignStore, some Err.authorizationError)) :=
  ⟨rfl, ownership_rejection "u" "N1" {} 0 foreignStore rfl⟩

/-- C6: deleteFolder on a folder of the caller containing exactly the
notes N1 and N2 succeeds, after which neither note exists, the folder id
is gone from the user folder-id index, and the folder record is deleted;
the index removal and the record deletion are applied in the same final
atomic step of the model, matching the single multi-path update() call. -/
theorem deleteFolder_cascade (u fid n1 n2 : String) (fd : Folder) (idx : List String)
    (s : Store)
    (hf : lookupK s.folders fid = some fd) (ho : fd.userId = u)
    (hn : fd.noteIds = [n1, n2]) (hi : lookupK s.userFolders u = some idx) :
    (deleteFolder u fid s).2 = none ∧
    lookupK (deleteFolder u fid s).1.notes n1 = none ∧
    lookupK (deleteFolder u fid s).1.notes n2 = none ∧
    lookupK (deleteFolder u fid s).1.folders fid = none ∧
    lookupK (deleteFolder u fid s).1.userFolders u =
      some (idx.filter (fun x => x != fid)) ∧
    fid ∉ idx.filter (fun x => x != fid) := by
  unfold deleteFolder
  rw [hf]
  simp only [ho, ne_eq, not_true_eq_false, if_false, hi, hn]
  refine ⟨trivial, ?_, ?_, ?_, ?_, ?_⟩
  · rw [lookupK_foldl_eraseK]; simp
  · rw [lookupK_foldl_eraseK]; simp
  · simp
  · simp
  · simp

/-- Witness for C6: deleting folder F of twoNoteStore removes notes N1
and N2, the folder record, and the index entry. -/
theorem deleteFolder_cascade_witness :
    lookupK twoNoteStore.folders "F" = some twoNoteFolder ∧
    twoNoteFolder.userId = "u" ∧
    twoNoteFolder.noteIds = ["N1", "N2"] ∧
    lookupK twoNoteStore.userFolders "u" = some ["F"] ∧
    ((deleteFolder "u" "F" twoNoteStore).2 = none ∧
     lookupK (deleteFolder "u" "F" twoNoteStore).1.notes "N1" = none ∧
     lookupK (deleteFolder "u" "F" twoNoteStore).1.notes "N2" = none ∧
     lookupK (deleteFolder "u" "F" twoNoteStore).1.folders "F" = none ∧
     lookupK (deleteFolder "u" "F" twoNoteStore).1.userFolders "u" =
       some (["F"].filter (fun x => x != "F")) ∧
     "F" ∉ ["F"].filter (fun x => x != "F")) :=
  ⟨rfl, rfl, rfl, rfl,
   deleteFolder_cascade "u" "F" "N1" "N2" twoNoteFolder ["F"] twoNoteStore rfl rfl rfl rfl⟩

/-- C8 (code_bug): the server-side rules do not restrict role writes to
root_admin writers and user/admin values.  At the failing input — the
authenticated user mallory, stored role user, writing the value
root_admin to her own users/mallory/role — the write is permitted,
because the users/$uid .write rule (auth.uid === $uid) cascades down to
the role child; the role-level rule itself evaluates to false, so the
grant comes only from the cascade the rules author failed to block. -/
theorem role_write_self_promotion :
    canWriteRole malloryRoles (some "mallory") "mallory" "root_admin" = true ∧
    malloryRoles "mallory" = some "user" ∧
    roleFieldWriteRule malloryRoles (some "mallory") "root_admin" = false := by
  refine ⟨?_, ?_, ?_⟩ <;> rfl

/-- C3 (code_bug): an updateFoldersList invocation arriving while another
is in flight (isProcessing set) returns immediately with the hook state
unchanged — in particular pendingUpdates does not grow, so the request is
dropped, not queued: no code path inserts into pendingUpdates, hence the
drain in the finally block never sees it. -/
theorem updateFoldersList_drops_concurrent (pending : List String) :
    updateFoldersListGuard { isProcessing := true, pendingUpdates := pending } =
      ({ isProcessing := true, pendingUpdates := pending }, false) ∧
    updateFoldersListFinish { isProcessing := false, pendingUpdates := pending } =
      ({ isProcessing := false, pendingUpdates := [] },
       if pending ≠ [] then some pending else none) := by
  constructor
  · rfl
  · unfold updateFoldersListFinish
    by_cases h : pending = [] <;> simp [h]

/-- C10: createNote never rejects on the title: with a folder selected it
succeeds for every title, storing the trimmed title when that is nonempty
and the literal Untitled Note otherwise, the trimmed content, and a
contentLength equal to the stored content length — so every stored title
is nonempty. -/
theorem createNote_title_spec (u title content f nid : String) (now : Nat) (s : Store) :
    (createNote u title content (some f) nid now s).2 = none ∧
    ∃ n : Note,
      lookupK (createNote u title content (some f) nid now s).1.notes nid = some n ∧
      n.title = (if trimStr title = "" then "Untitled Note" else trimStr title) ∧
      n.title ≠ "" ∧
      n.content = trimStr content ∧
      n.contentLength = n.content.length := by
  have hstep : (createNote u title content (some f) nid now s).2 = none ∧
      lookupK (createNote u title content (some f) nid now s).1.notes nid =
        some { title := if trimStr title = "" then "Untitled Note" else trimStr title,
               content := trimStr content, createdAt := now, updatedAt := now,
               userId := u, contentLength := (trimStr content).length,
               folderId := some f } := by
    unfold createNote
    dsimp only
    cases hl : lookupK s.folders f with
    | none => simp
    | some fo =>
      by_cases hu : fo.userId = u
      · by_cases hm : nid ∈ fo.noteIds
        · simp [hl, hu, hm]
        · simp [hl, hu, hm]
      · simp [hl, hu]
  refine ⟨hstep.1, ⟨_, hstep.2, rfl, ?_, rfl, rfl⟩⟩
  by_cases ht : trimStr title = "" <;> simp [ht]


/-- Amended C9: updateNote with content "buy milk and eggs" on a note of
the caller succeeds, stores that content with contentLength 17 (the
length of the string; the spec expected 18), refreshes updatedAt to now
(strictly above the prior value whenever the clock advanced), and leaves
folderId unchanged. -/
theorem updateNote_scenario (u nid : String) (note : Note) (now : Nat) (s : Store)
    (hl : lookupK s.notes nid = some note) (ho : note.userId = u)
    (ht : note.updatedAt < now) :
    (updateNote u nid { content := some "buy milk and eggs" } now s).2 = none ∧
    lookupK (updateNote u nid { content := some "buy milk and eggs" } now s).1.notes nid =
      some { note with content := "buy milk and eggs", contentLength := 17,
                       updatedAt := now } ∧
    note.updatedAt < now ∧
    ({ note with content := "buy milk and eggs", contentLength := 17,
                 updatedAt := now } : Note).folderId = note.folderId := by
  unfold updateNote
  simp [hl, ho, applyPayload]
  exact ⟨rfl, ht⟩

/-- Counterexample for C9: in the concrete store, the successful update
stores contentLength 17, not the 18 the claim expects ("buy milk and
eggs" has 17 characters). -/
theorem updateNote_scenario_counterexample :
    (updateNote "u" "N1" { content := some "buy milk and eggs" } 3 demoStore).2 = none ∧
    lookupK (updateNote "u" "N1" { content := some "buy milk and eggs" } 3
        demoStore).1.notes "N1" =
      some { demoNote with content := "buy milk and eggs", contentLength := 17,
                           updatedAt := 3 } ∧
    (17 : Nat) ≠ 18 :=
  ⟨rfl, rfl, by decide⟩

/-- Witness for C9: the amended scenario at the concrete store. -/
theorem updateNote_scenario_witness :
    lookupK demoStore.notes "N1" = some demoNote ∧
    demoNote.userId = "u" ∧ demoNote.updatedAt < 3 ∧
    ((updateNote "u" "N1" { content := some "buy milk and eggs" } 3 demoStore).2 = none ∧
     lookupK (updateNote "u" "N1" { content := some "buy milk and eggs" } 3
         demoStore).1.notes "N1" =
       some { demoNote with content := "buy milk and eggs", contentLength := 17,
                            updatedAt := 3 } ∧
     demoNote.updatedAt < 3 ∧
     ({ demoNote with content := "buy milk and eggs", contentLength := 17,
                      updatedAt := 3 } : Note).folderId = demoNote.folderId) :=
  ⟨rfl, rfl, by decide,
   updateNote_scenario "u" "N1" demoNote 3 demoStore rfl rfl (by decide)⟩

/-- Counterexample for C2: a successful updateNote carrying both content
and a different folderId performs the folder move but drops the content
field — the stored note keeps its old content and contentLength, so the
stored note does not reflect every field given in the partial update. -/
theorem updateNote_drops_fields_on_move :
    (updateNote "u" "N1" { content := some "fresh", folderPresent := true,
                           folderId := some "G" } 7 demoStore2).2 = none ∧
    ∃ n : Note,
      lookupK (updateNote "u" "N1" { content := some "fresh", folderPresent := true,
                                     folderId := some "G" } 7 demoStore2).1.notes "N1" =
        some n ∧
      n.folderId = some "G" ∧ n.content = "buy milk" ∧ n.content ≠ "fresh" ∧
      n.contentLength ≠ "fresh".length :=
  ⟨rfl, ⟨_, rfl, rfl, rfl, by decide, by decide⟩⟩

/-- Amended C2: for a successful updateNote by the owner, when folderId
is absent or unchanged the stored note is the payload merge — every given
field is reflected, updatedAt is refreshed, and contentLength is
recomputed whenever content is present; when folderId is present and
differs (the atomic multi-path folder-move write), only folderId and
updatedAt of the note are written and the other given fields are
dropped. -/
theorem updateNote_fields_spec (u nid : String) (note : Note) (v : NoteUpdates)
    (now : Nat) (s : Store)
    (hl : lookupK s.notes nid = some note) (ho : note.userId = u) :
    (¬ (v.folderPresent = true ∧ v.folderId ≠ note.folderId) →
      updateNote u nid v now s =
        ({ s with notes := upsert s.notes nid (applyPayload note v now) }, none)) ∧
    (∀ c, v.content = some c → (applyPayload note v now).contentLength = c.length) ∧
    (applyPayload note v now).updatedAt = now ∧
    (∀ t, v.title = some t → (applyPayload note v now).title = t) ∧
    (∀ f newF, v.folderPresent = true → v.folderId = some f → some f ≠ note.folderId →
      lookupK s.folders f = some newF → newF.userId = u →
      (updateNote u nid v now s).2 = none ∧
      lookupK (updateNote u nid v now s).1.notes nid =
        some { note with folderId := some f, updatedAt := now }) ∧
    (v.folderPresent = true → v.folderId = none → note.folderId ≠ none →
      (updateNote u nid v now s).2 = none ∧
      lookupK (updateNote u nid v now s).1.notes nid =
        some { note with folderId := none, updatedAt := now }) := by
  refine ⟨?_, ?_, ?_, ?_, ?_, ?_⟩
  · intro hnp
    unfold updateNote
    rw [hl]
    by_cases hfp : v.folderPresent = true
    · have heq : v.folderId = note.folderId := by
        by_contra hne
        exact hnp ⟨hfp, hne⟩
      simp [ho, hfp, heq]
    · simp [ho, hfp]
  · intro c hc; simp [applyPayload, hc]
  · simp [applyPayload]
  · intro t ht; simp [applyPayload, ht]
  · intro f newF hfp hfid hne hlf hown
    have hne2 : v.folderId ≠ note.folderId := by rw [hfid]; exact hne
    unfold updateNote
    rw [hl]
    simp [ho, hfp, hne2, hfid, hlf, hown, hne]
  · intro hfp hfid hne
    have hne2 : v.folderId ≠ note.folderId := by rw [hfid]; exact Ne.symm hne
    unfold updateNote
    rw [hl]
    simp [ho, hfp, hne2, hfid, Ne.symm hne]

/-- Witness for C2 (amended): an updateNote without folderId at the
concrete store is exactly the payload merge. -/
theorem updateNote_fields_spec_witness :
    lookupK demoStore2.notes "N1" = some demoNote ∧
    demoNote.userId = "u" ∧
    updateNote "u" "N1" { content := some "hello" } 9 demoStore2 =
      ({ demoStore2 with notes := upsert demoStore2.notes "N1" (applyPayload demoNote { content := some "hello" } 9) }, none) :=
  ⟨rfl, rfl,
   (updateNote_fields_spec "u" "N1" demoNote { content := some "hello" } 9 demoStore2
      rfl rfl).1 (by simp)⟩

/-- A successful moveNoteToFolder call leaves the note owned by the
caller, filed under the requested target, and (when the target is a
folder) listed in that folder noteIds with ownership intact; these are
the postconditions that make an immediate retry a no-op. -/
theorem moveNoteToFolder_ok (u nid : String) (t : Option String) (now : Nat)
    (s s1 : Store) (w : Bool)
    (h : moveNoteToFolder u nid t now s = (s1, none, w)) :
    ∃ note2 : Note, lookupK s1.notes nid = some note2 ∧ note2.userId = u ∧
      note2.folderId = t ∧
      ∀ T, t = some T → ∃ tf2, lookupK s1.folders T = some tf2 ∧ tf2.userId = u ∧
        nid ∈ tf2.noteIds := by
  unfold moveNoteToFolder at h
  cases hl : lookupK s.notes nid with
  | none => rw [hl] at h; simp at h
  | some note =>
    rw [hl] at h
    by_cases hu : note.userId = u
    case neg => simp [hu] at h
    case pos =>
      cases t with
      | none =>
        cases hparent : note.folderId with
        | none =>
          simp [hu, hparent] at h
          obtain ⟨hs1, hw⟩ := h
          subst hs1
          exact ⟨note, hl, hu, hparent, by simp⟩
        | some c =>
          cases hc : lookupK s.folders c with
          | none =>
            simp [hu, hparent, hc] at h
            obtain ⟨hs1, hw⟩ := h
            subst hs1
            exact ⟨{ note with folderId := none, updatedAt := now }, by simp [hu], by simp [hu],
              rfl, by simp⟩
          | some cf =>
            simp [hu, hparent, hc] at h
            obtain ⟨hs1, hw⟩ := h
            subst hs1
            exact ⟨{ note with folderId := none, updatedAt := now }, by simp [hu], by simp [hu],
              rfl, by simp⟩
      | some T =>
        cases hT : lookupK s.folders T with
        | none => simp [hu, hT] at h
        | some tf =>
          by_cases hTu : tf.userId = u
          case neg => simp [hu, hT, hTu] at h
          case pos =>
            by_cases hm : nid ∈ tf.noteIds
            case pos =>
              cases hparent : note.folderId with
              | none =>
                simp [hu, hT, hTu, hm, hparent] at h
                obtain ⟨hs1, hw⟩ := h
                subst hs1
                refine ⟨{ note with folderId := some T, updatedAt := now }, by simp [hu],
                  by simp [hu], rfl, ?_⟩
                intro T2 hT2
                cases hT2
                exact ⟨tf, hT, hTu, hm⟩
              | some c =>
                by_cases hcT : c = T
                case pos =>
                  subst hcT
                  simp [hu, hT, hTu, hm, hparent] at h
                  obtain ⟨hs1, hw⟩ := h
                  subst hs1
                  refine ⟨note, hl, hu, hparent, ?_⟩
                  intro T2 hT2
                  cases hT2
                  exact ⟨tf, hT, hTu, hm⟩
                case neg =>
                  cases hc : lookupK s.folders c with
                  | none =>
                    simp [hu, hT, hTu, hm, hparent, hc, hcT] at h
                    obtain ⟨hs1, hw⟩ := h
                    subst hs1
                    refine ⟨{ note with folderId := some T, updatedAt := now }, by simp [hu],
                      by simp [hu], rfl, ?_⟩
                    intro T2 hT2
                    cases hT2
                    exact ⟨tf, hT, hTu, hm⟩
                  | some cf =>
                    simp [hu, hT, hTu, hm, hparent, hc, hcT] at h
                    obtain ⟨hs1, hw⟩ := h
                    subst hs1
                    refine ⟨{ note with folderId := some T, updatedAt := now }, by simp [hu],
                      by simp [hu], rfl, ?_⟩
                    intro T2 hT2
                    cases hT2
                    refine ⟨tf, ?_, hTu, hm⟩
                    have hTc : T ≠ c := fun hh => hcT hh.symm
                    rw [lookupK_upsert_ne _ _ _ _ hTc]
                    exact hT
            case neg =>
              cases hparent : note.folderId with
              | none =>
                simp [hu, hT, hTu, hm, hparent] at h
                obtain ⟨hs1, hw⟩ := h
                subst hs1
                refine ⟨{ note with folderId := some T, updatedAt := now }, by simp [hu],
                  by simp [hu], rfl, ?_⟩
                intro T2 hT2
                cases hT2
                exact ⟨{ tf with noteIds := tf.noteIds ++ [nid], updatedAt := now },
                  by simp [hTu], hTu, by simp⟩
              | some c =>
                by_cases hcT : c = T
                case pos =>
                  subst hcT
                  simp [hu, hT, hTu, hm, hparent] at h
                  obtain ⟨hs1, hw⟩ := h
                  subst hs1
                  refine ⟨note, ?_, hu, hparent, ?_⟩
                  · simpa using hl
                  · intro T2 hT2
                    cases hT2
                    exact ⟨{ tf with noteIds := tf.noteIds ++ [nid], updatedAt := now },
                      by simp [hTu], hTu, by simp⟩
                case neg =>
                  cases hc : lookupK s.folders c with
                  | none =>
                    simp [hu, hT, hTu, hm, hparent, hc, hcT] at h
                    obtain ⟨hs1, hw⟩ := h
                    subst hs1
                    refine ⟨{ note with folderId := some T, updatedAt := now }, by simp [hu],
                      by simp [hu], rfl, ?_⟩
                    intro T2 hT2
                    cases hT2
                    exact ⟨{ tf with noteIds := tf.noteIds ++ [nid], updatedAt := now },
                      by simp [hTu], hTu, by simp⟩
                  | some cf =>
                    simp [hu, hT, hTu, hm, hparent, hc, hcT] at h
                    obtain ⟨hs1, hw⟩ := h
                    subst hs1
                    refine ⟨{ note with folderId := some T, updatedAt := now }, by simp [hu],
                      by simp [hu], rfl, ?_⟩
                    intro T2 hT2
                    cases hT2
                    refine ⟨{ tf with noteIds := tf.noteIds ++ [nid], updatedAt := now },
                      ?_, hTu, by simp⟩
                    have hTc : T ≠ c := fun hh => hcT hh.symm
                    rw [lookupK_upsert_ne _ _ _ _ hTc]
                    simp [hTu]

/-- A moveNoteToFolder call whose note already points at the target and
whose target folder (when given) exists, is owned by the caller, and
lists the note id, returns the store unchanged, succeeds, and issues no
write. -/
theorem moveNoteToFolder_noop (u nid : String) (t : Option String) (now : Nat) (s : Store)
    (note : Note) (hl : lookupK s.notes nid = some note) (ho : note.userId = u)
    (hfid : note.folderId = t)
    (htgt : ∀ T, t = some T →
      ∃ tf, lookupK s.folders T = some tf ∧ tf.userId = u ∧ nid ∈ tf.noteIds) :
    moveNoteToFolder u nid t now s = (s, none, false) := by
  unfold moveNoteToFolder
  rw [hl]
  cases t with
  | none => simp [ho, hfid]
  | some T =>
    obtain ⟨tf, hT, hTu, hTm⟩ := htgt T rfl
    simp [ho, hfid, hT, hTu, hTm]

/-- C4: moveNoteToFolder is idempotent — after a successful call, the
same call again (at any later clock value) returns the very same store,
succeeds, and issues no write to the backing store. -/
theorem moveNoteToFolder_idempotent (u nid : String) (t : Option String)
    (now now2 : Nat) (s s1 : Store) (w : Bool)
    (h : moveNoteToFolder u nid t now s = (s1, none, w)) :
    moveNoteToFolder u nid t now2 s1 = (s1, none, false) := by
  obtain ⟨note2, hl2, hu2, hf2, htgt2⟩ := moveNoteToFolder_ok u nid t now s s1 w h
  exact moveNoteToFolder_noop u nid t now2 s1 note2 hl2 hu2 hf2 htgt2

/-- Witness for C4: moving N1 from F to G in the concrete store writes
once; repeating the move returns the same store with no write. -/
theorem moveNoteToFolder_idempotent_witness :
    moveNoteToFolder "u" "N1" (some "G") 5 demoStore2 =
      ((moveNoteToFolder "u" "N1" (some "G") 5 demoStore2).1, none, true) ∧
    moveNoteToFolder "u" "N1" (some "G") 6
        (moveNoteToFolder "u" "N1" (some "G") 5 demoStore2).1 =
      ((moveNoteToFolder "u" "N1" (some "G") 5 demoStore2).1, none, false) :=
  ⟨rfl, moveNoteToFolder_idempotent "u" "N1" (some "G") 5 6 demoStore2 _ true rfl⟩


/-- C5: case-insensitive duplicate-name rejection of createFolder.
After a successful createFolder of Work, a second createFolder of work
by the same user fails with ConflictError and changes nothing, for every
coherent local cache: if the new folder id is cached the local check
fires, and otherwise the fresh lookup of the uncached indexed id finds
the collision.  For a different user with no folder index the same two
calls both succeed. -/
theorem createFolder_duplicate_name (u1 u2 F1 F2 : String)
    (c1 : List (String × String)) (n1 n2 : Nat) (s s1 : Store)
    (h1 : createFolder u1 c1 "Work" F1 n1 s = (s1, none)) :
    (∀ cache2, CacheCoherent s1 cache2 →
      createFolder u1 cache2 "work" F2 n2 s1 = (s1, some Err.conflictError)) ∧
    (u1 ≠ u2 → lookupK s.userFolders u2 = none →
      (createFolder u2 [] "work" F2 n2 s1).2 = none) := by
  unfold createFolder at h1
  rw [show trimStr "Work" = "Work" from rfl] at h1
  dsimp only at h1
  split at h1
  · simp at h1
  · split at h1
    · simp at h1
    · split at h1
      · simp at h1
      · split at h1
        · simp at h1
        · simp only [Prod.mk.injEq, and_true] at h1
          subst h1
          constructor
          · intro cache2 hcoh
            unfold createFolder
            rw [show trimStr "work" = "work" from rfl]
            dsimp only
            by_cases hA2 : (cache2.any fun p => lowerStr p.2 == lowerStr "work") = true
            · simp [hA2]
            · have hF1cache : (cache2.any fun p => p.1 == F1) = false := by
                rw [List.any_eq_false]
                intro p hp
                simp only [beq_iff_eq]
                intro hpF1
                obtain ⟨fr, hfr, hname⟩ := hcoh p hp
                rw [hpF1] at hfr
                simp only [lookupK_upsert_self] at hfr
                have hp2 : p.2 = "Work" := by
                  cases hfr
                  exact hname.symm
                apply hA2
                rw [List.any_eq_true]
                refine ⟨p, hp, ?_⟩
                rw [hp2]
                rfl
              have hids : lookupK (upsert s.userFolders u1
                  ((lookupK s.userFolders u1).getD [] ++ [F1])) u1 =
                  some ((lookupK s.userFolders u1).getD [] ++ [F1]) :=
                lookupK_upsert_self _ _ _
              have hmem : F1 ∈ List.filter (fun id => !cache2.any fun p => p.1 == id)
                  ((lookupK s.userFolders u1).getD [] ++ [F1]) := by
                rw [List.mem_filter]
                refine ⟨by simp, ?_⟩
                simp [hF1cache]
              have hdb : ((List.filter (fun id => !cache2.any fun p => p.1 == id)
                  ((lookupK s.userFolders u1).getD [] ++ [F1])).any fun id =>
                    match lookupK (upsert s.folders F1
                        { name := "Work", userId := u1, noteIds := [],
                          createdAt := n1, updatedAt := n1 }) id with
                    | some f => lowerStr f.name == lowerStr "work"
                    | none => false) = true := by
                rw [List.any_eq_true]
                refine ⟨F1, hmem, ?_⟩
                simp only [lookupK_upsert_self]
                rfl
              rw [if_neg (by decide), if_neg hA2, hids]
              simp only [Option.getD_some]
              rw [if_pos hdb]
          · intro hu12 hu2
            unfold createFolder
            rw [show trimStr "work" = "work" from rfl]
            dsimp only
            have hids2 : lookupK (upsert s.userFolders u1
                ((lookupK s.userFolders u1).getD [] ++ [F1])) u2 = none := by
              rw [lookupK_upsert_ne _ _ _ _ (Ne.symm hu12)]
              exact hu2
            rw [if_neg (by decide), if_neg (by simp), hids2]
            simp

/-- Witness for C5: from the empty store, user u creates Work, then work
collides for u (with the empty cache, exercising the fresh-lookup path)
while user v succeeds. -/
theorem createFolder_duplicate_name_witness :
    createFolder "u" [] "Work" "FW" 1 ⟨[], [], []⟩ =
      ((createFolder "u" [] "Work" "FW" 1 ⟨[], [], []⟩).1, none) ∧
    createFolder "u" [] "work" "F2" 2 (createFolder "u" [] "Work" "FW" 1 ⟨[], [], []⟩).1 =
      ((createFolder "u" [] "Work" "FW" 1 ⟨[], [], []⟩).1, some Err.conflictError) ∧
    (createFolder "v" [] "work" "F2" 2
      (createFolder "u" [] "Work" "FW" 1 ⟨[], [], []⟩).1).2 = none := by
  have h := createFolder_duplicate_name "u" "v" "FW" "F2" [] 1 2 ⟨[], [], []⟩ _ rfl
  exact ⟨rfl, h.1 [] (by intro p hp; simp at hp), h.2 (by decide) rfl⟩


/-- Core relinking lemma: moving one note of a consistent store from its
current folder reference to a different target — removing its id from
the old folder list, appending it to the target list (whose owner is the
note owner), and rewriting the note folderId — yields a consistent
store.  Both updateNote (folder branch) and moveNoteToFolder produce
stores of exactly this shape. -/
theorem relink_preserves (s s2 : Store) (hC : Consistent s)
    (nid : String) (note : Note) (tau : Option String) (now : Nat)
    (hn : lookupK s.notes nid = some note)
    (hne : tau ≠ note.folderId)
    (hself : lookupK s2.notes nid = some { note with folderId := tau, updatedAt := now })
    (hothern : ∀ k, k ≠ nid → lookupK s2.notes k = lookupK s.notes k)
    (htgt : ∀ T, tau = some T → ∃ tf, lookupK s.folders T = some tf ∧
        tf.userId = note.userId ∧
        lookupK s2.folders T =
          some { tf with noteIds := tf.noteIds ++ [nid], updatedAt := now })
    (hprev : ∀ p, note.folderId = some p → ∃ pf, lookupK s.folders p = some pf ∧
        lookupK s2.folders p =
          some { pf with noteIds := pf.noteIds.filter (fun x => x != nid),
                         updatedAt := now })
    (hother : ∀ k, tau ≠ some k → note.folderId ≠ some k →
        lookupK s2.folders k = lookupK s.folders k) :
    Consistent s2 := by
  obtain ⟨hNS, hFS⟩ := hC
  constructor
  · intro nid2 n2 fid2 hl2 hf2
    by_cases hnn : nid2 = nid
    · subst hnn
      rw [hself] at hl2
      cases hl2
      have htau : tau = some fid2 := hf2
      obtain ⟨tf, hTs, hTu, hTs2⟩ := htgt fid2 htau
      refine ⟨_, hTs2, ?_, ?_⟩
      · simp
      · simpa using hTu
    · rw [hothern nid2 hnn] at hl2
      obtain ⟨g, hg, hgm, hgu⟩ := hNS nid2 n2 fid2 hl2 hf2
      by_cases hT : tau = some fid2
      · obtain ⟨tf, hTs, hTu, hTs2⟩ := htgt fid2 hT
        rw [hTs] at hg
        cases hg
        exact ⟨_, hTs2, by simp [hgm], by simpa using hgu⟩
      · by_cases hP : note.folderId = some fid2
        · obtain ⟨pf, hPs, hPs2⟩ := hprev fid2 hP
          rw [hPs] at hg
          cases hg
          refine ⟨_, hPs2, ?_, by simpa using hgu⟩
          simp only [List.mem_filter]
          exact ⟨hgm, by simp [hnn]⟩
        · rw [hother fid2 hT hP]
          exact ⟨g, hg, hgm, hgu⟩
  · intro fid2 f2 nid2 hl2 hmem
    by_cases hT : tau = some fid2
    · obtain ⟨tf, hTs, hTu, hTs2⟩ := htgt fid2 hT
      rw [hTs2] at hl2
      cases hl2
      rcases List.mem_append.1 hmem with hmem1 | hmem2
      · obtain ⟨n2, hn2, hn2f⟩ := hFS fid2 tf nid2 hTs hmem1
        have hnn : nid2 ≠ nid := by
          intro he
          subst he
          rw [hn] at hn2
          cases hn2
          exact hne (by rw [hT, hn2f])
        exact ⟨n2, by rw [hothern nid2 hnn]; exact hn2, hn2f⟩
      · have he : nid2 = nid := by simpa using hmem2
        subst he
        refine ⟨_, hself, ?_⟩
        simpa using hT
    · by_cases hP : note.folderId = some fid2
      · obtain ⟨pf, hPs, hPs2⟩ := hprev fid2 hP
        rw [hPs2] at hl2
        cases hl2
        rw [List.mem_filter] at hmem
        obtain ⟨hm1, hm2⟩ := hmem
        have hnn : nid2 ≠ nid := by simpa using hm2
        obtain ⟨n2, hn2, hn2f⟩ := hFS fid2 pf nid2 hPs hm1
        exact ⟨n2, by rw [hothern nid2 hnn]; exact hn2, hn2f⟩
      · rw [hother fid2 hT hP] at hl2
        obtain ⟨n2, hn2, hn2f⟩ := hFS fid2 f2 nid2 hl2 hmem
        have hnn : nid2 ≠ nid := by
          intro he
          subst he
          rw [hn] at hn2
          cases hn2
          exact hP hn2f
        exact ⟨n2, by rw [hothern nid2 hnn]; exact hn2, hn2f⟩

/-- Replacing a stored note by one with the same folderId and userId
(the single-path payload merge of updateNote) preserves consistency. -/
theorem replace_same_link_preserves (s : Store) (hC : Consistent s) (nid : String)
    (note note2 : Note) (hl : lookupK s.notes nid = some note)
    (hfid : note2.folderId = note.folderId) (huid : note2.userId = note.userId) :
    Consistent { s with notes := upsert s.notes nid note2 } := by
  obtain ⟨hNS, hFS⟩ := hC
  constructor
  · intro nid2 n2 fid2 hl2 hf2
    by_cases hnn : nid2 = nid
    · subst hnn
      rw [lookupK_upsert_self] at hl2
      cases hl2
      obtain ⟨g, hg, hgm, hgu⟩ := hNS _ note fid2 hl (by rw [hfid] at hf2; exact hf2)
      exact ⟨g, hg, hgm, by rw [huid]; exact hgu⟩
    · rw [lookupK_upsert_ne _ _ _ _ hnn] at hl2
      exact hNS nid2 n2 fid2 hl2 hf2
  · intro fid2 f2 nid2 hl2 hmem
    obtain ⟨n2, hn2, hn2f⟩ := hFS fid2 f2 nid2 hl2 hmem
    by_cases hnn : nid2 = nid
    · subst hnn
      rw [hl] at hn2
      cases hn2
      refine ⟨note2, by rw [lookupK_upsert_self], by rw [hfid]; exact hn2f⟩
    · exact ⟨n2, by rw [lookupK_upsert_ne _ _ _ _ hnn]; exact hn2, hn2f⟩

/-- createNote preserves consistency when its target folder exists, is
owned by the caller, and the push id is fresh. -/
theorem createNote_preserves (u title content f nid : String) (now : Nat) (s : Store)
    (hC : Consistent s) (fd : Folder)
    (hf : lookupK s.folders f = some fd) (hfu : fd.userId = u)
    (hfresh : lookupK s.notes nid = none) :
    Consistent (createNote u title content (some f) nid now s).1 := by
  obtain ⟨hNS, hFS⟩ := hC
  have hnotmem : nid ∉ fd.noteIds := by
    intro hm
    obtain ⟨n, hn, _⟩ := hFS f fd nid hf hm
    rw [hfresh] at hn
    exact absurd hn (by simp)
  unfold createNote
  dsimp only
  rw [hf]
  dsimp only
  rw [if_pos hfu, if_neg hnotmem]
  constructor
  · intro nid2 n2 fid2 hl2 hf2
    dsimp only at hl2 hf2 ⊢
    by_cases hnn : nid2 = nid
    · subst hnn
      rw [lookupK_upsert_self] at hl2
      cases hl2
      have hfid2 : fid2 = f := by
        have : (some f : Option String) = some fid2 := hf2
        cases this
        rfl
      subst hfid2
      rw [lookupK_upsert_self]
      exact ⟨_, rfl, by simp, by simpa using hfu⟩
    · rw [lookupK_upsert_ne _ _ _ _ hnn] at hl2
      obtain ⟨g, hg, hgm, hgu⟩ := hNS nid2 n2 fid2 hl2 hf2
      by_cases hff : fid2 = f
      · subst hff
        rw [hf] at hg
        cases hg
        rw [lookupK_upsert_self]
        exact ⟨_, rfl, by simp [hgm], by simpa using hgu⟩
      · rw [lookupK_upsert_ne _ _ _ _ hff]
        exact ⟨g, hg, hgm, hgu⟩
  · intro fid2 f2 nid2 hl2 hmem
    dsimp only at hl2 ⊢
    by_cases hff : fid2 = f
    · subst hff
      rw [lookupK_upsert_self] at hl2
      cases hl2
      rcases List.mem_append.1 hmem with hmem1 | hmem2
      · obtain ⟨n2, hn2, hn2f⟩ := hFS _ fd nid2 hf hmem1
        have hnn : nid2 ≠ nid := by
          intro he
          subst he
          rw [hfresh] at hn2
          exact absurd hn2 (by simp)
        exact ⟨n2, by rw [lookupK_upsert_ne _ _ _ _ hnn]; exact hn2, hn2f⟩
      · have he : nid2 = nid := by simpa using hmem2
        subst he
        exact ⟨_, by rw [lookupK_upsert_self], rfl⟩
    · rw [lookupK_upsert_ne _ _ _ _ hff] at hl2
      obtain ⟨n2, hn2, hn2f⟩ := hFS fid2 f2 nid2 hl2 hmem
      have hnn : nid2 ≠ nid := by
        intro he
        subst he
        rw [hfresh] at hn2
        exact absurd hn2 (by simp)
      exact ⟨n2, by rw [lookupK_upsert_ne _ _ _ _ hnn]; exact hn2, hn2f⟩

/-- deleteNote preserves consistency unconditionally: the scan removes
the id from every folder of the caller containing it, and owner
agreement rules out a containing folder of another user. -/
theorem deleteNote_preserves (u nid : String) (now : Nat) (s : Store)
    (hC : Consistent s) :
    Consistent (deleteNote u nid now s).1 := by
  obtain ⟨hNS, hFS⟩ := hC
  unfold deleteNote
  cases hl : lookupK s.notes nid with
  | none => exact ⟨hNS, hFS⟩
  | some note =>
    dsimp only
    by_cases hu : note.userId = u
    case neg =>
      rw [if_pos hu]
      exact ⟨hNS, hFS⟩
    case pos =>
      rw [if_neg (by simp [hu])]
      constructor
      · intro nid2 n2 fid2 hl2 hf2
        dsimp only at hl2 ⊢
        have hnn : nid2 ≠ nid := by
          intro he
          subst he
          rw [lookupK_eraseK_self] at hl2
          exact absurd hl2 (by simp)
        rw [lookupK_eraseK_ne _ _ _ hnn] at hl2
        obtain ⟨g, hg, hgm, hgu⟩ := hNS nid2 n2 fid2 hl2 hf2
        rw [lookupK_mapVal]
        rw [hg]
        refine ⟨stripNote u nid now g, rfl, ?_, ?_⟩
        · unfold stripNote
          split
          · simp only [List.mem_filter]
            exact ⟨hgm, by simp [hnn]⟩
          · exact hgm
        · unfold stripNote
          split
          · exact hgu
          · exact hgu
      · intro fid2 f2 nid2 hl2 hmem
        dsimp only at hl2 ⊢
        rw [lookupK_mapVal] at hl2
        cases hg : lookupK s.folders fid2 with
        | none => rw [hg] at hl2; exact absurd hl2 (by simp)
        | some g =>
          rw [hg] at hl2
          simp only [Option.map_some'] at hl2
          have hf2g : f2 = stripNote u nid now g := by
            cases hl2
            rfl
          subst hf2g
          unfold stripNote at hmem
          by_cases hcond : g.userId = u ∧ nid ∈ g.noteIds
          · rw [if_pos hcond] at hmem
            simp only [List.mem_filter] at hmem
            obtain ⟨hm1, hm2⟩ := hmem
            have hnn : nid2 ≠ nid := by simpa using hm2
            obtain ⟨n2, hn2, hn2f⟩ := hFS fid2 g nid2 hg hm1
            refine ⟨n2, ?_, hn2f⟩
            rw [lookupK_eraseK_ne _ _ _ hnn]
            exact hn2
          · rw [if_neg hcond] at hmem
            obtain ⟨n2, hn2, hn2f⟩ := hFS fid2 g nid2 hg hmem
            have hnn : nid2 ≠ nid := by
              intro he
              subst he
              rw [hl] at hn2
              cases hn2
              obtain ⟨g2, hg2, hg2m, hg2u⟩ := hNS nid2 note fid2 hl hn2f
              rw [hg] at hg2
              cases hg2
              exact hcond ⟨by rw [hg2u, hu], hmem⟩
            refine ⟨n2, ?_, hn2f⟩
            rw [lookupK_eraseK_ne _ _ _ hnn]
            exact hn2

/-- updateNote preserves consistency unconditionally, by the payload
lemma in the unchanged-folder branch and the relinking lemma in the
folder-move branch (error paths leave the store unchanged). -/
theorem updateNote_preserves (u nid : String) (v : NoteUpdates) (now : Nat) (s : Store)
    (hC : Consistent s) : Consistent (updateNote u nid v now s).1 := by
  obtain ⟨hNS, hFS⟩ := hC
  unfold updateNote
  cases hl : lookupK s.notes nid with
  | none => exact ⟨hNS, hFS⟩
  | some note =>
    dsimp only
    by_cases hu : note.userId = u
    case neg =>
      rw [if_pos hu]
      exact ⟨hNS, hFS⟩
    case pos =>
      rw [if_neg (by simp [hu])]
      by_cases hfp : v.folderPresent = true
      case neg =>
        rw [if_neg hfp]
        exact replace_same_link_preserves s ⟨hNS, hFS⟩ nid note _ hl rfl rfl
      case pos =>
        rw [if_pos hfp]
        by_cases hch : v.folderId ≠ note.folderId
        case neg =>
          rw [if_neg hch]
          exact replace_same_link_preserves s ⟨hNS, hFS⟩ nid note _ hl rfl rfl
        case pos =>
          rw [if_pos hch]
          cases hparent : note.folderId with
          | some p =>
            obtain ⟨pf, hpf, hpm, hpu⟩ := hNS nid note p hl hparent
            dsimp only
            rw [hpf]
            dsimp only
            cases hv : v.folderId with
            | none =>
              dsimp only
              refine relink_preserves s _ ⟨hNS, hFS⟩ nid note none now hl ?_ ?_ ?_ ?_ ?_ ?_
              · rw [hparent]; simp
              · dsimp only; rw [lookupK_upsert_self]
              · intro k hk
                dsimp only
                rw [lookupK_upsert_ne _ _ _ _ hk]
              · intro T hT; cases hT
              · intro p2 hp2
                rw [hparent] at hp2
                cases hp2
                refine ⟨pf, hpf, ?_⟩
                dsimp only
                rw [lookupK_upsert_self]
              · intro k hkT hkP
                dsimp only
                have hkp : k ≠ p := by
                  intro he
                  subst he
                  exact hkP hparent
                rw [lookupK_upsert_ne _ _ _ _ hkp]
            | some f =>
              dsimp only
              cases hlf : lookupK s.folders f with
              | none => exact ⟨hNS, hFS⟩
              | some newF =>
                dsimp only
                by_cases hnfu : newF.userId = u
                case neg =>
                  rw [if_pos hnfu]
                  exact ⟨hNS, hFS⟩
                case pos =>
                  rw [if_neg (by simp [hnfu])]
                  have hpf2 : p ≠ f := by
                    intro he
                    subst he
                    rw [hv, hparent] at hch
                    exact hch rfl
                  have hnm : nid ∉ newF.noteIds := by
                    intro hm
                    obtain ⟨n2, hn2, hn2f⟩ := hFS f newF nid hlf hm
                    rw [hl] at hn2
                    cases hn2
                    rw [hv, hn2f] at hch
                    exact hch rfl
                  rw [if_neg hnm]
                  refine relink_preserves s _ ⟨hNS, hFS⟩ nid note (some f) now hl ?_ ?_ ?_ ?_ ?_ ?_
                  · rw [hparent]
                    intro he
                    cases he
                    exact hpf2 rfl
                  · dsimp only; rw [lookupK_upsert_self]
                  · intro k hk
                    dsimp only
                    rw [lookupK_upsert_ne _ _ _ _ hk]
                  · intro T hT
                    cases hT
                    refine ⟨newF, hlf, by rw [hnfu, hu], ?_⟩
                    dsimp only
                    rw [lookupK_upsert_self]
                  · intro p2 hp2
                    rw [hparent] at hp2
                    cases hp2
                    refine ⟨pf, hpf, ?_⟩
                    dsimp only
                    rw [lookupK_upsert_ne _ _ _ _ hpf2, lookupK_upsert_self]
                  · intro k hkT hkP
                    dsimp only
                    have hkf : k ≠ f := by
                      intro he
                      subst he
                      exact hkT rfl
                    have hkp : k ≠ p := by
                      intro he
                      subst he
                      exact hkP hparent
                    rw [lookupK_upsert_ne _ _ _ _ hkf, lookupK_upsert_ne _ _ _ _ hkp]
          | none =>
            rw [hparent] at hch
            dsimp only
            cases hv : v.folderId with
            | none =>
              rw [hv] at hch
              exact absurd rfl hch
            | some f =>
              dsimp only
              cases hlf : lookupK s.folders f with
              | none => exact ⟨hNS, hFS⟩
              | some newF =>
                dsimp only
                by_cases hnfu : newF.userId = u
                case neg =>
                  rw [if_pos hnfu]
                  exact ⟨hNS, hFS⟩
                case pos =>
                  rw [if_neg (by simp [hnfu])]
                  have hnm : nid ∉ newF.noteIds := by
                    intro hm
                    obtain ⟨n2, hn2, hn2f⟩ := hFS f newF nid hlf hm
                    rw [hl] at hn2
                    cases hn2
                    rw [hparent] at hn2f
                    exact absurd hn2f (by simp)
                  rw [if_neg hnm]
                  refine relink_preserves s _ ⟨hNS, hFS⟩ nid note (some f) now hl ?_ ?_ ?_ ?_ ?_ ?_
                  · rw [hparent]; simp
                  · dsimp only; rw [lookupK_upsert_self]
                  · intro k hk
                    dsimp only
                    rw [lookupK_upsert_ne _ _ _ _ hk]
                  · intro T hT
                    cases hT
                    refine ⟨newF, hlf, by rw [hnfu, hu], ?_⟩
                    dsimp only
                    rw [lookupK_upsert_self]
                  · intro p2 hp2
                    rw [hparent] at hp2
                    exact absurd hp2 (by simp)
                  · intro k hkT hkP
                    dsimp only
                    have hkf : k ≠ f := by
                      intro he
                      subst he
                      exact hkT rfl
                    rw [lookupK_upsert_ne _ _ _ _ hkf]

/-- moveNoteToFolder preserves consistency unconditionally: a no-op move
leaves the store unchanged and a real move is a relinking. -/
theorem moveNote_preserves (u nid : String) (t : Option String) (now : Nat) (s : Store)
    (hC : Consistent s) : Consistent (moveNoteToFolder u nid t now s).1 := by
  obtain ⟨hNS, hFS⟩ := hC
  unfold moveNoteToFolder
  cases hl : lookupK s.notes nid with
  | none => exact ⟨hNS, hFS⟩
  | some note =>
    dsimp only
    by_cases hu : note.userId = u
    case neg =>
      rw [if_pos hu]
      exact ⟨hNS, hFS⟩
    case pos =>
      rw [if_neg (by simp [hu])]
      cases t with
      | none =>
        dsimp only
        cases hparent : note.folderId with
        | none =>
          dsimp only
          exact ⟨hNS, hFS⟩
        | some c =>
          obtain ⟨cf, hcf, hcm, hcu⟩ := hNS nid note c hl hparent
          dsimp only
          rw [if_pos (by simp)]
          rw [hcf]
          dsimp only
          rw [if_pos (by simp)]
          refine relink_preserves s _ ⟨hNS, hFS⟩ nid note none now hl ?_ ?_ ?_ ?_ ?_ ?_
          · rw [hparent]; simp
          · dsimp only; rw [lookupK_upsert_self]
          · intro k hk
            dsimp only
            rw [lookupK_upsert_ne _ _ _ _ hk]
          · intro T hT; cases hT
          · intro p2 hp2
            rw [hparent] at hp2
            cases hp2
            refine ⟨cf, hcf, ?_⟩
            dsimp only
            rw [lookupK_upsert_self]
          · intro k hkT hkP
            dsimp only
            have hkc : k ≠ c := by
              intro he
              subst he
              exact hkP hparent
            rw [lookupK_upsert_ne _ _ _ _ hkc]
      | some T =>
        dsimp only
        cases hT : lookupK s.folders T with
        | none => exact ⟨hNS, hFS⟩
        | some tf =>
          dsimp only
          by_cases hTu : tf.userId = u
          case neg =>
            rw [if_pos hTu]
            exact ⟨hNS, hFS⟩
          case pos =>
            rw [if_neg (by simp [hTu])]
            by_cases hm : nid ∈ tf.noteIds
            case pos =>
              rw [if_pos hm]
              obtain ⟨n2, hn2, hn2f⟩ := hFS T tf nid hT hm
              rw [hl] at hn2
              cases hn2
              dsimp only
              rw [hn2f]
              dsimp only
              rw [if_neg (by simp), if_neg (by simp)]
              exact ⟨hNS, hFS⟩
            case neg =>
              rw [if_neg hm]
              dsimp only
              have hfidT : note.folderId ≠ some T := by
                intro he
                obtain ⟨g, hg, hgm, _⟩ := hNS nid note T hl he
                rw [hT] at hg
                cases hg
                exact hm hgm
              cases hparent : note.folderId with
              | none =>
                dsimp only
                rw [if_pos (by simp)]
                refine relink_preserves s _ ⟨hNS, hFS⟩ nid note (some T) now hl ?_ ?_ ?_ ?_ ?_ ?_
                · rw [hparent]; simp
                · dsimp only; rw [lookupK_upsert_self]
                · intro k hk
                  dsimp only
                  rw [lookupK_upsert_ne _ _ _ _ hk]
                · intro T2 hT2
                  cases hT2
                  refine ⟨tf, hT, by rw [hTu, hu], ?_⟩
                  dsimp only
                  rw [lookupK_upsert_self]
                · intro p2 hp2
                  rw [hparent] at hp2
                  exact absurd hp2 (by simp)
                · intro k hkT hkP
                  dsimp only
                  have hkT2 : k ≠ T := by
                    intro he
                    subst he
                    exact hkT rfl
                  rw [lookupK_upsert_ne _ _ _ _ hkT2]
              | some c =>
                obtain ⟨cf, hcf, hcm, hcu⟩ := hNS nid note c hl hparent
                have hcT : c ≠ T := by
                  intro he
                  subst he
                  rw [hparent] at hfidT
                  exact hfidT rfl
                dsimp only
                rw [if_pos (by simp [hcT])]
                rw [hcf]
                dsimp only
                rw [if_pos (by simp [hcT])]
                refine relink_preserves s _ ⟨hNS, hFS⟩ nid note (some T) now hl ?_ ?_ ?_ ?_ ?_ ?_
                · rw [hparent]
                  intro he
                  cases he
                  exact hcT rfl
                · dsimp only; rw [lookupK_upsert_self]
                · intro k hk
                  dsimp only
                  rw [lookupK_upsert_ne _ _ _ _ hk]
                · intro T2 hT2
                  cases hT2
                  refine ⟨tf, hT, by rw [hTu, hu], ?_⟩
                  dsimp only
                  have hTc : T ≠ c := fun he => hcT he.symm
                  rw [lookupK_upsert_ne _ _ _ _ hTc, lookupK_upsert_self]
                · intro p2 hp2
                  rw [hparent] at hp2
                  cases hp2
                  refine ⟨cf, hcf, ?_⟩
                  dsimp only
                  rw [lookupK_upsert_self]
                · intro k hkT hkP
                  dsimp only
                  have hkT2 : k ≠ T := by
                    intro he
                    subst he
                    exact hkT rfl
                  have hkc : k ≠ c := by
                    intro he
                    subst he
                    exact hkP hparent
                  rw [lookupK_upsert_ne _ _ _ _ hkc, lookupK_upsert_ne _ _ _ _ hkT2]

/-- deleteFolder preserves consistency when the caller has a user record
(ruling out the failure after the member notes are already deleted):
the member notes and the folder disappear together, and cross-links are
impossible in a consistent store. -/
theorem deleteFolder_preserves (u fid : String) (s : Store) (hC : Consistent s)
    (hidx : (lookupK s.userFolders u).isSome = true) :
    Consistent (deleteFolder u fid s).1 := by
  obtain ⟨hNS, hFS⟩ := hC
  unfold deleteFolder
  cases hf : lookupK s.folders fid with
  | none => exact ⟨hNS, hFS⟩
  | some fd =>
    dsimp only
    by_cases hfu : fd.userId = u
    case neg =>
      rw [if_pos hfu]
      exact ⟨hNS, hFS⟩
    case pos =>
      rw [if_neg (by simp [hfu])]
      cases hux : lookupK s.userFolders u with
      | none => rw [hux] at hidx; simp at hidx
      | some idx =>
        dsimp only
        constructor
        · intro nid2 n2 fid2 hl2 hf2
          dsimp only at hl2 ⊢
          rw [lookupK_foldl_eraseK] at hl2
          by_cases hmem : nid2 ∈ fd.noteIds
          · rw [if_pos hmem] at hl2
            exact absurd hl2 (by simp)
          · rw [if_neg hmem] at hl2
            obtain ⟨g, hg, hgm, hgu⟩ := hNS nid2 n2 fid2 hl2 hf2
            have hfid2 : fid2 ≠ fid := by
              intro he
              subst he
              rw [hf] at hg
              cases hg
              exact hmem hgm
            rw [lookupK_eraseK_ne _ _ _ hfid2]
            exact ⟨g, hg, hgm, hgu⟩
        · intro fid2 f2 nid2 hl2 hmem
          dsimp only at hl2 ⊢
          have hfid2 : fid2 ≠ fid := by
            intro he
            subst he
            rw [lookupK_eraseK_self] at hl2
            exact absurd hl2 (by simp)
          rw [lookupK_eraseK_ne _ _ _ hfid2] at hl2
          obtain ⟨n2, hn2, hn2f⟩ := hFS fid2 f2 nid2 hl2 hmem
          have hnotin : nid2 ∉ fd.noteIds := by
            intro hin
            obtain ⟨n3, hn3, hn3f⟩ := hFS fid fd nid2 hf hin
            rw [hn2] at hn3
            cases hn3
            rw [hn2f] at hn3f
            injection hn3f with hbad
            exact hfid2 hbad
          rw [lookupK_foldl_eraseK, if_neg hnotin]
          exact ⟨n2, hn2, hn2f⟩

/-- Dispatch: every operation of the sequence preserves consistency
under its opValidB side condition. -/
theorem applyOp_preserves (op : Op) (s : Store) (hC : Consistent s)
    (hv : opValidB s op = true) : Consistent (applyOp op s).1 := by
  cases op with
  | create u title content fid nid now =>
    simp only [applyOp]
    cases fid with
    | none => simp [opValidB] at hv
    | some f =>
      simp only [opValidB, Bool.and_eq_true] at hv
      obtain ⟨hv1, hv2⟩ := hv
      cases hf : lookupK s.folders f with
      | none => rw [hf] at hv1; simp at hv1
      | some fd =>
        rw [hf] at hv1
        simp at hv1
        have hfresh : lookupK s.notes nid = none := Option.isNone_iff_eq_none.1 hv2
        exact createNote_preserves u title content f nid now s hC fd hf hv1 hfresh
  | upd u nid v now => exact updateNote_preserves u nid v now s hC
  | del u nid now => exact deleteNote_preserves u nid now s hC
  | move u nid t now => exact moveNote_preserves u nid t now s hC
  | delFolder u fid =>
    simp only [opValidB] at hv
    exact deleteFolder_preserves u fid s hC hv

/-- Amended C1: starting from a consistent store — membership symmetry
plus owner agreement (spec invariant 1) — any sequence of createNote,
updateNote, deleteNote, moveNoteToFolder and deleteFolder operations
preserves the invariant, provided each createNote call names an existing
folder owned by its caller with a fresh push id and each deleteFolder
caller has a user record.  Without the createNote proviso the invariant
fails (see the counterexample): createNote stores the note with the
requested folderId even when that folder does not exist or belongs to
someone else, and then skips the membership write. -/
theorem membership_symmetry_preserved (ops : List Op) (s : Store)
    (hC : Consistent s) (hv : validOpsB s ops = true) :
    Consistent (applyOps ops s) := by
  induction ops generalizing s with
  | nil => simpa [applyOps] using hC
  | cons op rest ih =>
    simp only [validOpsB, Bool.and_eq_true] at hv
    obtain ⟨h1, h2⟩ := hv
    simp only [applyOps, List.foldl_cons]
    exact ih (applyOp op s).1 (applyOp_preserves op s hC h1) h2

/-- Counterexample for C1 as stated: from the empty (consistent) store,
a completed createNote into the nonexistent folder F succeeds and leaves
a note whose folderId names no stored folder, violating membership
symmetry. -/
theorem membership_symmetry_counterexample :
    Consistent (⟨[], [], []⟩ : Store) ∧
    (createNote "u" "t" "c" (some "F") "N1" 0 ⟨[], [], []⟩).2 = none ∧
    ¬ Consistent (createNote "u" "t" "c" (some "F") "N1" 0 ⟨[], [], []⟩).1 := by
  refine ⟨consistent_of_B _ rfl, rfl, ?_⟩
  intro hC
  obtain ⟨hNS, _⟩ := hC
  have hstored : lookupK (createNote "u" "t" "c" (some "F") "N1" 0 ⟨[], [], []⟩).1.notes "N1" =
      some { title := "t", content := "c", createdAt := 0, updatedAt := 0,
             userId := "u", contentLength := 1, folderId := some "F" } := rfl
  obtain ⟨g, hg, -, -⟩ := hNS "N1" _ "F" hstored rfl
  have hnone : lookupK (createNote "u" "t" "c" (some "F") "N1" 0 ⟨[], [], []⟩).1.folders "F" = none := rfl
  rw [hnone] at hg
  exact absurd hg (by simp)

/-- Witness for C1 (amended): a five-operation run over the concrete
store — create into F, move to unfiled, update content, delete the other
note, delete the folder — keeps the store consistent. -/
theorem membership_symmetry_preserved_witness :
    Consistent demoStore ∧
    validOpsB demoStore
      [Op.create "u" "New" "text" (some "F") "N2" 2,
       Op.move "u" "N2" none 3,
       Op.upd "u" "N1" { content := some "hi" } 4,
       Op.del "u" "N1" 5,
       Op.delFolder "u" "F"] = true ∧
    Consistent (applyOps
      [Op.create "u" "New" "text" (some "F") "N2" 2,
       Op.move "u" "N2" none 3,
       Op.upd "u" "N1" { content := some "hi" } 4,
       Op.del "u" "N1" 5,
       Op.delFolder "u" "F"] demoStore) :=
  ⟨consistent_of_B _ rfl, rfl,
   membership_symmetry_preserved _ demoStore (consistent_of_B _ rfl) rfl⟩

end FireNotes
